import Mathlib

/-!
# Verification of the qlite queue engine

Shallow embedding of the qlite message-broker core (`src/database.rs`,
`src/queue_service.rs`, `src/message.rs`, `src/config.rs`) as pure Lean
functions over an explicit store state, together with theorems settling the
frozen claims about the engine.

Modelling conventions:
* SQLite tables are lists kept in rowid (insertion) order.
* Timestamps are modelled as `Nat` seconds. A comparison between two RFC3339
  strings (the dedup window, the cleanup cutoff) agrees with chronological
  order and is modelled as `<` on seconds; a comparison of a stored RFC3339
  string against `datetime('now')` (the receive predicate) holds only at
  UTC-day granularity and is modelled by `rfc3339LtDatetimeNow`.
* `Utc::now()` is passed in explicitly as a `now : Nat` parameter; the several
  `Utc::now()` calls inside one engine operation (microseconds apart) are
  modelled as the same instant.
* SQL `ORDER BY k ASC LIMIT n` is modelled as a stable selection: among rows
  with equal keys the earlier rowid wins, matching SQLite's index scan over
  the `(queue_name, created_at)` / `(queue_name, …, sequence_number)` indexes;
  SQL `NULL` sorts before every value in ascending order.
* `INSERT OR REPLACE` deletes the conflicting row and inserts a fresh row in
  which every column absent from the statement's column list takes its schema
  default (this is the SQLite semantics that drives `set_queue_attributes`).
-/

namespace QLite

/-- A row of the `messages` table (schema in `database.rs`, `init_schema`). -/
structure Message where
  id : String
  queue_name : String
  body : String
  created_at : Nat
  visibility_timeout : Option Nat := none
  receive_count : Int := 0
  attributes : Option String := none
  deduplication_id : Option String := none
  status : String := "active"
  processed_at : Option Nat := none
  deleted_at : Option Nat := none
  delay_until : Option Nat := none
  message_group_id : Option String := none
  sequence_number : Option Int := none
deriving Repr, DecidableEq

/-- A row of the `queue_config` table (`config.rs`, `QueueConfig`). -/
structure QueueConfig where
  name : String
  is_fifo : Bool := false
  content_based_deduplication : Bool := false
  visibility_timeout_seconds : Int := 30
  message_retention_period_seconds : Int := 1209600
  max_receive_count : Option Int := some 10
  dead_letter_target_arn : Option String := none
  delay_seconds : Int := 0
  receive_message_wait_time_seconds : Int := 0
deriving Repr, DecidableEq

/-- A row of the `dead_letter_messages` table. -/
structure DeadLetterMessage where
  id : String
  original_queue_name : String
  dlq_name : String
  failure_reason : String
  moved_at : Nat
  original_message_data : String
  original_body : String
  original_attributes : String
  receive_count : Int
  original_created_at : Nat
deriving Repr, DecidableEq

/-- Models `config.rs` `RetentionMode`. -/
inductive RetentionMode where
  | KeepForever
  | Delete
deriving Repr, DecidableEq

/-- Models `config.rs` `RetentionConfig`. -/
structure RetentionConfig where
  cleanup_interval_seconds : Nat := 3600
  batch_size : Nat := 1000
  mode : RetentionMode := RetentionMode.KeepForever
  delete_after_days : Option Nat := some 14
deriving Repr, DecidableEq

/-- The persistent state held in the SQLite file: the four tables, each in
rowid (insertion) order. -/
structure Db where
  queues : List (String × Nat) := []
  messages : List Message := []
  queue_config : List QueueConfig := []
  dead_letter_messages : List DeadLetterMessage := []
deriving Repr, DecidableEq

/-- The row shape returned by the receive queries:
`SELECT id, body, created_at, attributes`. -/
structure ReceiveRow where
  id : String
  body : String
  created_at : Nat
  attributes : Option String
deriving Repr, DecidableEq

/-- Models `message.rs` `ReceivedMessage`: the service-level delivery record; the
receipt handle is the message id (`ReceivedMessage::new`). -/
structure ReceivedMessage where
  id : String
  body : String
  receipt_handle : String
  attributes : Option String
deriving Repr, DecidableEq

/-- The parameter struct of `Database::send_message_with_delay_and_group`
(`database.rs`, `SendMessageParams`). -/
structure SendMessageParams where
  queue_name : String
  message_id : String
  body : String
  attributes : Option String := none
  deduplication_id : Option String := none
  delay_until : Option Nat := none
  message_group_id : Option String := none
deriving Repr, DecidableEq

/-- The attribute map handed to `set_queue_attributes`, after the string
parsing the Rust performs on each entry: a field is `none` when the key is
absent or its value fails to parse, in which case the code falls back to the
documented default. `redrive_policy` is `some (maxReceiveCount?, arn?)` when
the `RedrivePolicy` value parses as JSON. -/
structure QueueAttributeMap where
  visibility_timeout : Option Int := none
  message_retention_period : Option Int := none
  delay_seconds : Option Int := none
  receive_message_wait_time : Option Int := none
  redrive_policy : Option (Option Int × Option String) := none
deriving Repr, DecidableEq

/-- Stands for the MD5 digest used for content-based deduplication
(`md5::compute` in `send_message_with_delay_and_group`); the claims depend
only on its being a deterministic function of the body. -/
def md5hex (s : String) : String := toString s.hash

/-- Models `SELECT … FROM queue_config WHERE name = ?1` (first row). -/
def getQueueConfig (db : Db) (name : String) : Option QueueConfig :=
  db.queue_config.find? (fun c => c.name == name)

/-- Whether the queue is FIFO per `receive_message`: the `is_fifo` column of
`queue_config`, defaulting to `false` when no config row exists. -/
def queueIsFifo (db : Db) (q : String) : Bool :=
  ((getQueueConfig db q).map (fun c => c.is_fifo)).getD false

/-- Models the SQL comparison `col < datetime('now')` for a column written as
a chrono RFC3339 string. The stored text is `YYYY-MM-DDTHH:MM:SS.fff+00:00`
while `datetime('now')` yields `YYYY-MM-DD HH:MM:SS`; SQLite compares TEXT by
memcmp, so the first ten bytes compare the zero-padded dates and, on equal
dates, the eleventh byte is `T` (0x54) against a space (0x20), making the
stored value the greater. The comparison therefore holds exactly when the
stored timestamp's UTC day strictly precedes the current UTC day. -/
def rfc3339LtDatetimeNow (t now : Nat) : Bool :=
  decide (t / 86400 < now / 86400)

/-- The receive selection predicate, the WHERE clause shared by
`receive_message` and `receive_messages_batch`:
`queue_name = ?1 AND status = 'active' AND (visibility_timeout IS NULL OR
visibility_timeout < datetime('now')) AND (delay_until IS NULL OR
delay_until < datetime('now'))`. Because the stored columns are RFC3339 text
compared against `datetime('now')`'s different format, the two timestamp
comparisons hold only at UTC-day granularity (`rfc3339LtDatetimeNow`). -/
def selectable (q : String) (now : Nat) (m : Message) : Bool :=
  m.queue_name == q && m.status == "active" &&
    (match m.visibility_timeout with
      | none => true
      | some t => rfc3339LtDatetimeNow t now) &&
    (match m.delay_until with
      | none => true
      | some d => rfc3339LtDatetimeNow d now)

/-- Ascending comparison on nullable `sequence_number` columns; SQL `NULL`
sorts before every value. -/
def seqLt : Option Int → Option Int → Bool
  | none, none => false
  | none, some _ => true
  | some _, none => false
  | some a, some b => decide (a < b)

/-- Strict ordering used by the single-receive head query: `ORDER BY
sequence_number ASC` on FIFO queues, `ORDER BY created_at ASC` otherwise. -/
def msgLt (is_fifo : Bool) (m₁ m₂ : Message) : Bool :=
  if is_fifo then seqLt m₁.sequence_number m₂.sequence_number
  else decide (m₁.created_at < m₂.created_at)

/-- Models `ORDER BY … ASC LIMIT 1`: the first row (in rowid order) whose key is
minimal; ties keep the earlier row. -/
def selectHead (lt : Message → Message → Bool) (l : List Message) : Option Message :=
  l.foldl
    (fun acc m =>
      match acc with
      | none => some m
      | some b => if lt m b then some m else some b)
    none

/-- Insert into a list sorted by `le`, after every element already `le` it
(so equal keys keep their relative order). -/
def insertSorted (le : Message → Message → Bool) (x : Message) : List Message → List Message
  | [] => [x]
  | y :: ys => if le y x then y :: insertSorted le x ys else x :: y :: ys

/-- Stable sort by `le`: models `ORDER BY key ASC` over a rowid-ordered scan,
where equal keys come back in rowid order. -/
def stableSort (le : Message → Message → Bool) (l : List Message) : List Message :=
  l.foldl (fun acc x => insertSorted le x acc) []

/-- Non-strict `created_at` comparison for the batch query's
`ORDER BY created_at ASC`. -/
def createdLe (m₁ m₂ : Message) : Bool := decide (m₁.created_at ≤ m₂.created_at)

/-- Models `SELECT receive_count FROM messages WHERE id = ?1` (first row; the row is
known to exist because `m` was just selected). -/
def lookupReceiveCount (db : Db) (m : Message) : Int :=
  ((db.messages.find? (fun x => x.id == m.id)).getD m).receive_count

/-- The dedup lookup shared by the send paths:
`SELECT COUNT(*) FROM messages WHERE queue_name = ?1 AND deduplication_id = ?2
AND created_at > now − 300` is positive. (`c > now − 300` is written
`now < c + 300`, the same inequality without `Nat` truncation.) -/
def dedupExists (db : Db) (q d : String) (now : Nat) : Bool :=
  db.messages.any (fun m =>
    m.queue_name == q && m.deduplication_id == some d && decide (now < m.created_at + 300))

/-- Models `MAX(sequence_number)` over a list of non-NULL values, `none` when empty. -/
def maxSeq (l : List Int) : Option Int :=
  l.foldl
    (fun acc v =>
      match acc with
      | none => some v
      | some a => some (max a v))
    none

/-- Models `SELECT COALESCE(MAX(sequence_number), 0) + 1 FROM messages WHERE
queue_name = ?1`. -/
def nextSequenceNumber (db : Db) (q : String) : Int :=
  (maxSeq (db.messages.filterMap
    (fun m => if m.queue_name == q then m.sequence_number else none))).getD 0 + 1

namespace Database

/-- Models `Database::create_queue`: `INSERT OR IGNORE INTO queues`. -/
def create_queue (db : Db) (queue_name : String) (now : Nat) : Db :=
  if db.queues.any (fun qr => qr.1 == queue_name) then db
  else { db with queues := db.queues ++ [(queue_name, now)] }

/-- Models `Database::delete_queue`: delete the queue's messages, then the queue row;
returns whether a queue row was deleted. -/
def delete_queue (db : Db) (queue_name : String) : Bool × Db :=
  (db.queues.any (fun qr => qr.1 == queue_name),
   { db with
      messages := db.messages.filter (fun m => m.queue_name != queue_name),
      queues := db.queues.filter (fun qr => qr.1 != queue_name) })

/-- Models `Database::create_queue_with_config`: `create_queue` followed by
`INSERT OR REPLACE INTO queue_config` listing every column. -/
def create_queue_with_config (db : Db) (cfg : QueueConfig) (now : Nat) : Db :=
  let db₁ := create_queue db cfg.name now
  { db₁ with
      queue_config := db₁.queue_config.filter (fun c => c.name != cfg.name) ++ [cfg] }

/-- Models `Database::set_queue_attributes`: parse the attribute map (defaults 30 /
1209600 / 0 / 0, redrive policy absent ⇒ no max count and no DLQ arn), then
`INSERT OR REPLACE INTO queue_config (name, visibility_timeout_seconds,
message_retention_period_seconds, delay_seconds,
receive_message_wait_time_seconds, max_receive_count, dead_letter_target_arn)`.
The statement's column list omits `is_fifo` and `content_based_deduplication`,
so the replaced row takes their schema defaults (`FALSE`). -/
def set_queue_attributes (db : Db) (queue_name : String) (a : QueueAttributeMap) : Db :=
  let mrcArn := a.redrive_policy.getD (none, none)
  let newCfg : QueueConfig :=
    { name := queue_name
      is_fifo := false
      content_based_deduplication := false
      visibility_timeout_seconds := a.visibility_timeout.getD 30
      message_retention_period_seconds := a.message_retention_period.getD 1209600
      max_receive_count := mrcArn.1
      dead_letter_target_arn := mrcArn.2
      delay_seconds := a.delay_seconds.getD 0
      receive_message_wait_time_seconds := a.receive_message_wait_time.getD 0 }
  { db with
      queue_config := db.queue_config.filter (fun c => c.name != queue_name) ++ [newCfg] }

/-- Models `Database::get_queue_config`: row for the queue, decoded. -/
def get_queue_config (db : Db) (queue_name : String) : Option QueueConfig :=
  getQueueConfig db queue_name

end Database

/-- The effective message group id of `send_message_with_delay_and_group`:
FIFO sends lacking one get `"default"`. -/
def effectiveGroup (is_fifo : Bool) (g : Option String) : Option String :=
  if is_fifo && g.isNone then some "default" else g

/-- The effective deduplication id of `send_message_with_delay_and_group`:
explicit id if given; on FIFO queues with content-based dedup enabled, the
hash of the body; otherwise none. -/
def effectiveDedup (cfg : Option QueueConfig) (is_fifo : Bool)
    (dedup : Option String) (body : String) : Option String :=
  if is_fifo then
    match dedup, cfg with
    | some i, _ => some i
    | none, some c =>
        if c.content_based_deduplication then some (md5hex body) else none
    | none, none => none
  else dedup

/-- Whether `send_message_with_delay_and_group` takes the silent duplicate
early return. -/
def sendSkips (db : Db) (p : SendMessageParams) (now : Nat) : Bool :=
  match effectiveDedup (getQueueConfig db p.queue_name) (queueIsFifo db p.queue_name)
      p.deduplication_id p.body with
  | some d => dedupExists db p.queue_name d now
  | none => false

/-- The row inserted by `send_message_with_delay_and_group`: columns absent
from the INSERT take their schema defaults (`status 'active'`,
`receive_count 0`, NULL timestamps). -/
def insertedMessage (db : Db) (p : SendMessageParams) (now : Nat) : Message :=
  let is_fifo := queueIsFifo db p.queue_name
  { id := p.message_id
    queue_name := p.queue_name
    body := p.body
    created_at := now
    attributes := p.attributes
    deduplication_id :=
      effectiveDedup (getQueueConfig db p.queue_name) is_fifo p.deduplication_id p.body
    delay_until := p.delay_until
    message_group_id := effectiveGroup is_fifo p.message_group_id
    sequence_number :=
      if is_fifo then some (nextSequenceNumber db p.queue_name) else none }

namespace Database

/-- Models `Database::send_message_with_delay_and_group`: resolve the queue config,
default the FIFO group id, compute the effective dedup id, silently succeed on
a duplicate within the 5-minute window, otherwise allocate the FIFO sequence
number and insert the row. -/
def send_message_with_delay_and_group (db : Db) (p : SendMessageParams) (now : Nat) : Db :=
  if sendSkips db p now then db
  else { db with messages := db.messages ++ [insertedMessage db p now] }

end Database

/-- The head row picked by `receive_message`'s SELECT. -/
def receiveHead (db : Db) (q : String) (now : Nat) : Option Message :=
  selectHead (msgLt (queueIsFifo db q)) (db.messages.filter (selectable q now))

/-- The DLQ branch condition of `receive_message`: the queue config row
exists with both `max_receive_count` and `dead_letter_target_arn` set, and the
incremented receive count exceeds the maximum. -/
def dlqTrigger (db : Db) (q : String) (m : Message) : Bool :=
  match getQueueConfig db q with
  | some c =>
      match c.max_receive_count, c.dead_letter_target_arn with
      | some maxCount, some _ => decide (maxCount < lookupReceiveCount db m + 1)
      | _, _ => false
  | none => false

namespace Database

/-- Models `Database::receive_message`: select the head per the predicate (ordered by
`sequence_number` on FIFO queues, `created_at` otherwise); on the DLQ branch
mark the row `dlq_pending` with the incremented receive count and return no
row; otherwise stamp `visibility_timeout = now + 30`, the new receive count,
`status = 'processing'`, `processed_at = now`, and return the selected row. -/
def receive_message (db : Db) (q : String) (now : Nat) : Option ReceiveRow × Db :=
  match receiveHead db q now with
  | none => (none, db)
  | some m =>
      let new_count := lookupReceiveCount db m + 1
      if dlqTrigger db q m then
        (none,
         { db with
            messages := db.messages.map (fun x =>
              if x.id == m.id then
                { x with status := "dlq_pending", receive_count := new_count }
              else x) })
      else
        (some ⟨m.id, m.body, m.created_at, m.attributes⟩,
         { db with
            messages := db.messages.map (fun x =>
              if x.id == m.id then
                { x with
                    visibility_timeout := some (now + 30)
                    receive_count := new_count
                    status := "processing"
                    processed_at := some now }
              else x) })

/-- Models `Database::delete_message`: `UPDATE messages SET status = 'deleted',
deleted_at = now WHERE id = ?1`; returns whether any row was updated. -/
def delete_message (db : Db) (message_id : String) (now : Nat) : Bool × Db :=
  ((db.messages.filter (fun m => m.id == message_id)).length > 0,
   { db with
      messages := db.messages.map (fun m =>
        if m.id == message_id then
          { m with status := "deleted", deleted_at := some now }
        else m) })

/-- Models `Database::restore_message`: `UPDATE messages SET status = 'active',
deleted_at = NULL, visibility_timeout = NULL WHERE id = ?1`. -/
def restore_message (db : Db) (message_id : String) : Bool × Db :=
  ((db.messages.filter (fun m => m.id == message_id)).length > 0,
   { db with
      messages := db.messages.map (fun m =>
        if m.id == message_id then
          { m with status := "active", deleted_at := none, visibility_timeout := none }
        else m) })

end Database

/-- The rows the batch receive's SELECT returns: the first `min max 10`
candidates in `created_at ASC` order (no FIFO case in this query). -/
def batchSelectedRows (db : Db) (q : String) (max_messages now : Nat) : List Message :=
  (stableSort createdLe (db.messages.filter (selectable q now))).take (min max_messages 10)

/-- The per-row batch UPDATE: `SET visibility_timeout = now + 30,
receive_count = receive_count + 1, status = 'processing', processed_at = now
WHERE id = ?`. -/
def batchStamp (now : Nat) (rid : String) (x : Message) : Message :=
  if x.id == rid then
    { x with
        visibility_timeout := some (now + 30)
        receive_count := x.receive_count + 1
        status := "processing"
        processed_at := some now }
  else x

namespace Database

/-- Models `Database::receive_messages_batch`: take up to `min max 10` rows
matching the predicate ordered by `created_at ASC`, then per returned row
apply the `batchStamp` UPDATE in one transaction. -/
def receive_messages_batch (db : Db) (q : String) (max_messages : Nat) (now : Nat) :
    List ReceiveRow × Db :=
  let rows := batchSelectedRows db q max_messages now
  let db' := rows.foldl
    (fun acc r => { acc with messages := acc.messages.map (batchStamp now r.id) })
    db
  (rows.map (fun m => ⟨m.id, m.body, m.created_at, m.attributes⟩), db')

end Database

/-- The JSON envelope `move_message_to_dlq` serializes into
`original_message_data`; the claims depend only on its being a deterministic
function of the fields. -/
def originalMessageData (message_id body : String) (attributes : Option String)
    (created_at : Nat) (receive_count : Int) : String :=
  message_id ++ "|" ++ body ++ "|" ++ attributes.getD "" ++ "|" ++
    toString created_at ++ "|" ++ toString receive_count

/-- The DLQ queue name extracted from the ARN: the final path component after
the last `/` (`dlq_arn.split('/').next_back().unwrap_or(&dlq_arn)`). -/
def lastPathComponent (s : String) : String :=
  (s.splitOn "/").getLastD s

namespace Database

/-- Models `Database::move_message_to_dlq`: find the non-deleted message; if its
queue has a config row with a DLQ arn, insert the `dead_letter_messages`
record and delete the original row, returning true; otherwise false. -/
def move_message_to_dlq (db : Db) (message_id failure_reason : String) (now : Nat) :
    Bool × Db :=
  match db.messages.find? (fun m => m.id == message_id && m.status != "deleted") with
  | none => (false, db)
  | some m =>
      match getQueueConfig db m.queue_name with
      | none => (false, db)
      | some c =>
          match c.dead_letter_target_arn with
          | none => (false, db)
          | some arn =>
              let entry : DeadLetterMessage :=
                { id := m.id
                  original_queue_name := m.queue_name
                  dlq_name := lastPathComponent arn
                  failure_reason := failure_reason
                  moved_at := now
                  original_message_data :=
                    originalMessageData m.id m.body m.attributes m.created_at m.receive_count
                  original_body := m.body
                  original_attributes := m.attributes.getD ""
                  receive_count := m.receive_count
                  original_created_at := m.created_at }
              (true,
               { db with
                  dead_letter_messages := db.dead_letter_messages ++ [entry],
                  messages := db.messages.filter (fun x => x.id != message_id) })

/-- The row of the KeepForever cleanup's WHERE clause:
`status = 'processing' AND visibility_timeout < now` (a NULL deadline fails
the comparison). -/
def expiredProcessing (now : Nat) (m : Message) : Bool :=
  m.status == "processing" &&
    (match m.visibility_timeout with
      | none => false
      | some t => decide (t < now))

/-- Models `Database::cleanup_expired_messages`. KeepForever: `UPDATE messages SET
status = 'active', visibility_timeout = NULL WHERE status = 'processing' AND
visibility_timeout < now`, returning the changed-row count. Delete: `DELETE
FROM messages WHERE created_at < now − delete_after_days·86400` (the cutoff
comparison is written without `Nat` truncation). -/
def cleanup_expired_messages (db : Db) (rc : RetentionConfig) (now : Nat) : Nat × Db :=
  match rc.mode with
  | RetentionMode.KeepForever =>
      ((db.messages.filter (expiredProcessing now)).length,
       { db with
          messages := db.messages.map (fun m =>
            if expiredProcessing now m then
              { m with status := "active", visibility_timeout := none }
            else m) })
  | RetentionMode.Delete =>
      let retention_seconds := (rc.delete_after_days.getD 14) * 86400
      ((db.messages.filter (fun m => decide (m.created_at + retention_seconds < now))).length,
       { db with
          messages := db.messages.filter (fun m =>
            !(decide (m.created_at + retention_seconds < now))) })

end Database

namespace QueueService

/-- Errors surfaced by the service layer. -/
inductive ServiceError where
  | fifoNameTooShort
deriving Repr, DecidableEq

/-- The config `QueueService::create_queue` installs for a FIFO name:
`QueueConfig::default()` with the name, `is_fifo = true`,
`content_based_deduplication = true`. -/
def fifoDefaultConfig (name : String) : QueueConfig :=
  { name := name, is_fifo := true, content_based_deduplication := true }

/-- Models `QueueService::create_queue`: a name ending in `.fifo` must be longer
than 5 characters; the queue row is inserted, and FIFO names additionally get
the default FIFO config row. -/
def create_queue (db : Db) (queue_name : String) (now : Nat) : Except ServiceError Db :=
  let is_fifo := queue_name.endsWith ".fifo"
  if is_fifo && queue_name.length ≤ 5 then Except.error ServiceError.fifoNameTooShort
  else
    let db₁ := Database.create_queue db queue_name now
    if is_fifo then
      Except.ok (Database.create_queue_with_config db₁ (fifoDefaultConfig queue_name) now)
    else Except.ok db₁

/-- Models `QueueService::send_message_enhanced_with_group`: build the message
(fresh id and `created_at = now` from `Message::new`, `delay_until = now +
delay_seconds` when positive per `with_delay_seconds`), hand it to the store,
and return the message id. The fresh UUID is a parameter. -/
def send_message_enhanced_with_group (db : Db) (queue_name message_id body : String)
    (attributes : Option String) (deduplication_id : Option String)
    (delay_seconds : Nat) (message_group_id : Option String) (now : Nat) : String × Db :=
  let delay_until := if delay_seconds > 0 then some (now + delay_seconds) else none
  (message_id,
   Database.send_message_with_delay_and_group db
     { queue_name := queue_name
       message_id := message_id
       body := body
       attributes := attributes
       deduplication_id := deduplication_id
       delay_until := delay_until
       message_group_id := message_group_id } now)

/-- Models `QueueService::receive_message`: wrap the store row; the receipt handle is
the message id. -/
def receive_message (db : Db) (q : String) (now : Nat) : Option ReceivedMessage × Db :=
  match Database.receive_message db q now with
  | (some r, db') => (some ⟨r.id, r.body, r.id, r.attributes⟩, db')
  | (none, db') => (none, db')

/-- The immediate-drain loop at the top of
`QueueService::receive_messages_enhanced` (`for _ in 0..max_messages`): call
`receive_message` up to `max` times, stopping at the first `None`. With
`wait_time_seconds = 0` the enhanced receive returns exactly this. -/
def receive_messages_enhanced_immediate (db : Db) (q : String) :
    Nat → Nat → List ReceivedMessage × Db
  | _, 0 => ([], db)
  | now, n + 1 =>
      match receive_message db q now with
      | (some msg, db') =>
          let rest := receive_messages_enhanced_immediate db' q now n
          (msg :: rest.1, rest.2)
      | (none, db') => ([], db')

/-- Models `QueueService::delete_message`: the receipt handle is the message id. -/
def delete_message (db : Db) (receipt_handle : String) (now : Nat) : Bool × Db :=
  Database.delete_message db receipt_handle now

/-- Models `QueueService::delete_queue`. -/
def delete_queue (db : Db) (queue_name : String) : Bool × Db :=
  Database.delete_queue db queue_name

/-- Models `QueueService::set_queue_attributes`. -/
def set_queue_attributes (db : Db) (queue_name : String) (a : QueueAttributeMap) : Db :=
  Database.set_queue_attributes db queue_name a

/-- Models `QueueService::get_queue_config`. -/
def get_queue_config (db : Db) (queue_name : String) : Option QueueConfig :=
  Database.get_queue_config db queue_name

end QueueService

/-- Modelled from the spec: the deterministic lexicographic `message_id`
tie-break the spec prescribes for head selection ("Tie-break by `message_id`
lexicographic order"); no such clause exists in the source queries. Used only
to compare the spec's demanded head with the one the code picks. -/
def lexLt : List Char → List Char → Bool
  | [], [] => false
  | [], _ :: _ => true
  | _ :: _, [] => false
  | a :: as, b :: bs => if a < b then true else if b < a then false else lexLt as bs

/-- One call to the enhanced send path, as used to state the dedup-idempotence
claim: the fresh UUID, payload and clock reading of the call. -/
structure SendCall where
  message_id : String
  body : String
  attributes : Option String := none
  delay_seconds : Nat := 0
  message_group_id : Option String := none
  time : Nat
deriving Repr, DecidableEq

/-- Runs a sequence of `QueueService::send_message_enhanced_with_group` calls,
all against queue `q` with the same explicit deduplication id `d`. -/
def runDedupSends (q d : String) (calls : List SendCall) (db : Db) : Db :=
  calls.foldl
    (fun acc c =>
      (QueueService.send_message_enhanced_with_group acc q c.message_id c.body
        c.attributes (some d) c.delay_seconds c.message_group_id c.time).2)
    db

/-- The store-level parameter record a `SendCall` turns into. -/
def dedupCallParams (q d : String) (c : SendCall) : SendMessageParams :=
  { queue_name := q
    message_id := c.message_id
    body := c.body
    attributes := c.attributes
    deduplication_id := some d
    delay_until := if c.delay_seconds > 0 then some (c.time + c.delay_seconds) else none
    message_group_id := c.message_group_id }

/-- Queue config for the DLQ scenarios: `max_receive_count = 1` and a DLQ
target configured. -/
def exCfg1 : QueueConfig :=
  { name := "q", max_receive_count := some 1,
    dead_letter_target_arn := some "arn:aws:sqs:us-east-1:1:dlq" }

/-- Reachable state for the DLQ-promotion scenario: queue `q` (max receive
count 1, DLQ configured) holding `m1` with `receive_count = 1` (one receive at
t=20 whose lease the t=100 cleanup reclaimed) and a fresh `m2`. -/
def exDb1 : Db :=
  let db1 := Database.create_queue_with_config {} exCfg1 0
  let db2 := (QueueService.send_message_enhanced_with_group db1 "q" "m1" "hello"
    none none 0 none 10).2
  let db3 := (QueueService.receive_message db2 "q" 20).2
  let db4 := (Database.cleanup_expired_messages db3 {} 100).2
  (QueueService.send_message_enhanced_with_group db4 "q" "m2" "world" none none 0 none 200).2

/-- The `m1` row of `exDb1` after the reclaim: back to `active` with
`receive_count = 1`. -/
def exMsg1 : Message :=
  { id := "m1", queue_name := "q", body := "hello", created_at := 10,
    receive_count := 1, status := "active", processed_at := some 20 }

/-- Queue config with a visibility timeout of 5 seconds, not the default 30. -/
def exCfg2 : QueueConfig := { name := "q", visibility_timeout_seconds := 5 }

/-- Reachable state for the visibility-deadline scenario: queue `q` configured
with a 5-second visibility timeout and one active message. -/
def exDb2 : Db :=
  let db1 := Database.create_queue_with_config {} exCfg2 0
  (QueueService.send_message_enhanced_with_group db1 "q" "m1" "x" none none 0 none 10).2

/-- The single message of `exDb2`. -/
def exMsg2 : Message := { id := "m1", queue_name := "q", body := "x", created_at := 10 }

/-- Reachable state for the FIFO-flag scenario: the FIFO queue `orders.fifo`
with the config row `QueueService::create_queue` installs for FIFO names. -/
def exDb3 : Db :=
  Database.create_queue_with_config {} (QueueService.fifoDefaultConfig "orders.fifo") 0

/-- Reachable state for the delete-twice scenario: queue `q` with one message. -/
def exDb4 : Db :=
  (QueueService.send_message_enhanced_with_group (Database.create_queue {} "q" 0)
    "q" "m1" "x" none none 0 none 10).2

/-- Reachable state for the delayed-delivery scenario: queue `q` with one
message sent at t=0 with `delay_seconds = 50`. -/
def exDb5 : Db :=
  (QueueService.send_message_enhanced_with_group (Database.create_queue {} "q" 0)
    "q" "m1" "x" none none 50 none 0).2

/-- The single message of `exDb5`: `delay_until = 50`. -/
def exMsg5 : Message :=
  { id := "m1", queue_name := "q", body := "x", created_at := 0, delay_until := some 50 }

/-- Three sends of the same `(queue, dedup_id)` within a 5-minute window. -/
def exCalls6 : List SendCall :=
  [{ message_id := "u1", body := "p", time := 10 },
   { message_id := "u2", body := "p", time := 20 },
   { message_id := "u3", body := "p", time := 250 }]

/-- Initial state for the dedup scenario: the bare queue `q`. -/
def exDb6 : Db := Database.create_queue {} "q" 0

/-- FIFO queue config with a DLQ target (content-based dedup off, explicit
dedup ids used instead). -/
def exCfg7 : QueueConfig :=
  { name := "q.fifo", is_fifo := true,
    dead_letter_target_arn := some "arn:aws:sqs:us-east-1:1:dlq" }

/-- Reachable state for the sequence-reuse scenario: FIFO queue `q.fifo` with
`m1` (sequence 1) and `m2` (sequence 2). -/
def exDb7 : Db :=
  let db1 := Database.create_queue_with_config {} exCfg7 0
  let db2 := (QueueService.send_message_enhanced_with_group db1 "q.fifo" "m1" "A"
    none (some "d1") 0 none 10).2
  (QueueService.send_message_enhanced_with_group db2 "q.fifo" "m2" "B"
    none (some "d2") 0 none 20).2

/-- The state after `m2` is promoted to the DLQ (its row physically removed)
and `m3` is sent: `m3` is assigned sequence number 2 again. -/
def exDb7c : Db :=
  (QueueService.send_message_enhanced_with_group
    (Database.move_message_to_dlq exDb7 "m2" "exceeded max receive count" 30).2
    "q.fifo" "m3" "C" none (some "d3") 0 none 40).2

/-- Reachable state for the tie-break scenario: queue `q` with two messages
that share `created_at = 10`, inserted as id `"z"` then id `"a"`. -/
def exDb8 : Db :=
  let db1 := Database.create_queue {} "q" 0
  let db2 := (QueueService.send_message_enhanced_with_group db1 "q" "z" "bz"
    none none 0 none 10).2
  (QueueService.send_message_enhanced_with_group db2 "q" "a" "ba" none none 0 none 10).2

/-- The row the code's head selection picks in `exDb8`: the earlier-inserted
id `"z"`. -/
def exMsg8z : Message := { id := "z", queue_name := "q", body := "bz", created_at := 10 }

/-- The row the spec's lexicographic tie-break would pick in `exDb8`. -/
def exMsg8a : Message := { id := "a", queue_name := "q", body := "ba", created_at := 10 }

/-- Reachable state for the cleanup scenario: one expired `processing` row
(deadline 50), one live `processing` row (deadline 500), one `active` row. -/
def exDb9 : Db :=
  let db1 := Database.create_queue {} "q" 0
  let db2 := (QueueService.send_message_enhanced_with_group db1 "q" "m1" "a"
    none none 0 none 10).2
  let db3 := (QueueService.receive_message db2 "q" 20).2
  let db4 := (QueueService.send_message_enhanced_with_group db3 "q" "m2" "b"
    none none 0 none 30).2
  let db5 := (QueueService.receive_message db4 "q" 470).2
  (QueueService.send_message_enhanced_with_group db5 "q" "m3" "c" none none 0 none 480).2


/-- Key through which nullable `sequence_number` columns are compared: SQL
NULL is the bottom element. -/
def seqKey : Option Int → WithBot Int
  | none => ⊥
  | some v => (v : WithBot Int)

/-- The head-selection key as a function of the queue kind: `sequence_number`
(NULLs first) on FIFO queues, `created_at` otherwise. -/
def headKey (is_fifo : Bool) (m : Message) : WithBot Int :=
  if is_fifo then seqKey m.sequence_number else (m.created_at : Int)

/-- A further send to the FIFO queue of `exDb7`, used to exercise sequence
allocation. -/
def exParams7 : SendMessageParams :=
  { queue_name := "q.fifo", message_id := "m4", body := "D", deduplication_id := some "d4" }


theorem seqLt_eq_decide (a b : Option Int) : seqLt a b = decide (seqKey a < seqKey b) := by
  cases a <;> cases b <;>
    simp [seqLt, seqKey]

theorem msgLt_eq_decide (is_fifo : Bool) (a b : Message) :
    msgLt is_fifo a b = decide (headKey is_fifo a < headKey is_fifo b) := by
  cases is_fifo <;> simp [msgLt, headKey, seqLt_eq_decide]

theorem selectHead_foldl_spec {κ : Type} [LinearOrder κ] (k : Message → κ)
    (lt : Message → Message → Bool) (hlt : ∀ a b, lt a b = decide (k a < k b)) :
    ∀ (l : List Message) (acc : Option Message) (m : Message),
      l.foldl
        (fun acc x =>
          match acc with
          | none => some x
          | some b => if lt x b then some x else some b) acc = some m →
      (acc = some m ∨ m ∈ l) ∧ (∀ b, acc = some b → k m ≤ k b) ∧ ∀ x ∈ l, k m ≤ k x := by
  intro l
  induction l with
  | nil =>
      intro acc m h
      simp only [List.foldl_nil] at h
      subst h
      exact ⟨Or.inl rfl, fun b hb => le_of_eq (congrArg k (Option.some.inj hb)),
        fun x hx => absurd hx (List.not_mem_nil x)⟩
  | cons x xs ih =>
      intro acc m h
      simp only [List.foldl_cons] at h
      obtain ⟨h1, h2, h3⟩ := ih _ m h
      cases acc with
      | none =>
          refine ⟨Or.inr ?_, ⟨fun b hb => (nomatch hb), fun y hy => ?_⟩⟩
          · rcases h1 with h1 | h1
            · exact (Option.some.inj h1) ▸ List.mem_cons_self x xs
            · exact List.mem_cons_of_mem x h1
          · rcases List.mem_cons.mp hy with rfl | hy
            · exact h2 y rfl
            · exact h3 y hy
      | some b =>
          by_cases hxb : lt x b = true
          · simp only [hxb, if_true] at h1 h2
            have hmx : k m ≤ k x := h2 x rfl
            have hxltb : k x < k b := of_decide_eq_true ((hlt x b) ▸ hxb)
            refine ⟨?_, fun c hc => ?_, fun y hy => ?_⟩
            · rcases h1 with h1 | h1
              · exact Or.inr ((Option.some.inj h1) ▸ List.mem_cons_self x xs)
              · exact Or.inr (List.mem_cons_of_mem x h1)
            · cases Option.some.inj hc
              exact le_of_lt (lt_of_le_of_lt hmx hxltb)
            · rcases List.mem_cons.mp hy with rfl | hy
              · exact hmx
              · exact h3 y hy
          · have hxb' : lt x b = false := by
              cases hval : lt x b
              · rfl
              · exact absurd hval hxb
            simp only [hxb', if_false] at h1 h2
            have hmb : k m ≤ k b := h2 b rfl
            have hbx : k b ≤ k x := by
              have := (hlt x b) ▸ hxb'
              exact le_of_not_lt (of_decide_eq_false this)
            refine ⟨?_, fun c hc => ?_, fun y hy => ?_⟩
            · rcases h1 with h1 | h1
              · exact Or.inl h1
              · exact Or.inr (List.mem_cons_of_mem x h1)
            · cases Option.some.inj hc
              exact hmb
            · rcases List.mem_cons.mp hy with rfl | hy
              · exact le_trans hmb hbx
              · exact h3 y hy

theorem selectHead_spec {κ : Type} [LinearOrder κ] (k : Message → κ)
    (lt : Message → Message → Bool) (hlt : ∀ a b, lt a b = decide (k a < k b))
    (l : List Message) (m : Message) (h : selectHead lt l = some m) :
    m ∈ l ∧ ∀ x ∈ l, k m ≤ k x := by
  obtain ⟨h1, _, h3⟩ := selectHead_foldl_spec k lt hlt l none m h
  rcases h1 with h1 | h1
  · cases h1
  · exact ⟨h1, h3⟩

theorem selectHead_foldl_isSome (lt : Message → Message → Bool) :
    ∀ (l : List Message) (b : Message),
      (l.foldl
        (fun acc x =>
          match acc with
          | none => some x
          | some c => if lt x c then some x else some c) (some b)).isSome := by
  intro l
  induction l with
  | nil => intro b; rfl
  | cons x xs ih =>
      intro b
      simp only [List.foldl_cons]
      by_cases h : lt x b = true
      · simpa [h] using ih x
      · have h' : lt x b = false := by
          cases hval : lt x b
          · rfl
          · exact absurd hval h
        simpa [h'] using ih b

theorem selectHead_isSome (lt : Message → Message → Bool) (l : List Message)
    (hl : l ≠ []) : (selectHead lt l).isSome := by
  cases l with
  | nil => exact absurd rfl hl
  | cons x xs => simpa [selectHead] using selectHead_foldl_isSome lt xs x


theorem mem_insertSorted (le : Message → Message → Bool) (x : Message) :
    ∀ (l : List Message) (y : Message), y ∈ insertSorted le x l → y = x ∨ y ∈ l := by
  intro l
  induction l with
  | nil =>
      intro y hy
      simp only [insertSorted, List.mem_singleton] at hy
      exact Or.inl hy
  | cons z zs ih =>
      intro y hy
      simp only [insertSorted] at hy
      by_cases h : le z x = true
      · rw [if_pos h] at hy
        rcases List.mem_cons.mp hy with h0 | hy
        · exact Or.inr (h0 ▸ List.mem_cons_self z zs)
        · rcases ih y hy with h' | h'
          · exact Or.inl h'
          · exact Or.inr (List.mem_cons_of_mem z h')
      · rw [if_neg h] at hy
        rcases List.mem_cons.mp hy with rfl | hy
        · exact Or.inl rfl
        · exact Or.inr hy

theorem pairwise_insertSorted (x : Message) :
    ∀ (l : List Message),
      l.Pairwise (fun a b => a.created_at ≤ b.created_at) →
      (insertSorted createdLe x l).Pairwise (fun a b => a.created_at ≤ b.created_at) := by
  intro l
  induction l with
  | nil =>
      intro _
      simp [insertSorted]
  | cons z zs ih =>
      intro hp
      rw [List.pairwise_cons] at hp
      obtain ⟨hz, hzs⟩ := hp
      simp only [insertSorted]
      by_cases h : createdLe z x = true
      · have hzx : z.created_at ≤ x.created_at := by
          simpa [createdLe] using h
        rw [if_pos h, List.pairwise_cons]
        constructor
        · intro y hy
          rcases mem_insertSorted createdLe x zs y hy with rfl | hy'
          · exact hzx
          · exact hz y hy'
        · exact ih hzs
      · have hxz : x.created_at ≤ z.created_at := by
          have : ¬ z.created_at ≤ x.created_at := by simpa [createdLe] using h
          exact le_of_not_le this
        rw [if_neg h, List.pairwise_cons]
        constructor
        · intro y hy
          rcases List.mem_cons.mp hy with rfl | hy'
          · exact hxz
          · exact le_trans hxz (hz y hy')
        · exact List.pairwise_cons.mpr ⟨hz, hzs⟩

theorem pairwise_stableSort_aux :
    ∀ (l acc : List Message),
      acc.Pairwise (fun a b => a.created_at ≤ b.created_at) →
      (l.foldl (fun acc x => insertSorted createdLe x acc) acc).Pairwise
        (fun a b => a.created_at ≤ b.created_at) := by
  intro l
  induction l with
  | nil =>
      intro acc h
      simpa using h
  | cons x xs ih =>
      intro acc h
      simp only [List.foldl_cons]
      exact ih _ (pairwise_insertSorted x acc h)

theorem pairwise_stableSort (l : List Message) :
    (stableSort createdLe l).Pairwise (fun a b => a.created_at ≤ b.created_at) :=
  pairwise_stableSort_aux l [] List.Pairwise.nil

theorem receive_messages_batch_sorted (db : Db) (q : String) (maxM now : Nat) :
    ((Database.receive_messages_batch db q maxM now).1).Pairwise
      (fun a b => a.created_at ≤ b.created_at) := by
  have hrows : (batchSelectedRows db q maxM now).Pairwise
      (fun a b : Message => a.created_at ≤ b.created_at) := by
    simp only [batchSelectedRows]
    exact List.Pairwise.sublist (List.take_sublist _ _) (pairwise_stableSort _)
  simp only [Database.receive_messages_batch]
  exact List.pairwise_map.mpr hrows


theorem effectiveDedup_explicit (cfg : Option QueueConfig) (fifo : Bool)
    (d body : String) : effectiveDedup cfg fifo (some d) body = some d := by
  cases fifo <;> cases cfg <;> simp [effectiveDedup]

theorem sendSkips_of_explicit (db : Db) (p : SendMessageParams) (now : Nat) (d : String)
    (hd : p.deduplication_id = some d) :
    sendSkips db p now = dedupExists db p.queue_name d now := by
  simp [sendSkips, hd, effectiveDedup_explicit]

theorem send_skip_eq (db : Db) (p : SendMessageParams) (now : Nat)
    (h : sendSkips db p now = true) :
    Database.send_message_with_delay_and_group db p now = db := by
  simp [Database.send_message_with_delay_and_group, h]

theorem send_insert_eq (db : Db) (p : SendMessageParams) (now : Nat)
    (h : sendSkips db p now = false) :
    Database.send_message_with_delay_and_group db p now
      = { db with messages := db.messages ++ [insertedMessage db p now] } := by
  simp [Database.send_message_with_delay_and_group, h]

theorem dedupExists_of_mem {db : Db} {q d : String} {now : Nat} {m : Message}
    (hm : m ∈ db.messages) (hq : m.queue_name = q) (hd : m.deduplication_id = some d)
    (ht : now < m.created_at + 300) : dedupExists db q d now = true := by
  simp only [dedupExists, List.any_eq_true]
  exact ⟨m, hm, by simp [hq, hd, ht]⟩

theorem maxSeq_foldl_some :
    ∀ (l : List Int) (a : Int),
      ∃ w, l.foldl
        (fun acc v =>
          match acc with
          | none => some v
          | some a => some (max a v)) (some a) = some w ∧ a ≤ w := by
  intro l
  induction l with
  | nil =>
      intro a
      exact ⟨a, rfl, le_refl a⟩
  | cons v vs ih =>
      intro a
      simp only [List.foldl_cons]
      obtain ⟨w, hw, hle⟩ := ih (max a v)
      exact ⟨w, hw, le_trans (le_max_left a v) hle⟩

theorem maxSeq_foldl_mem :
    ∀ (l : List Int) (acc : Option Int) (v : Int), v ∈ l →
      ∃ w, l.foldl
        (fun acc v =>
          match acc with
          | none => some v
          | some a => some (max a v)) acc = some w ∧ v ≤ w := by
  intro l
  induction l with
  | nil =>
      intro acc v hv
      exact absurd hv (List.not_mem_nil v)
  | cons u us ih =>
      intro acc v hv
      simp only [List.foldl_cons]
      rcases List.mem_cons.mp hv with h0 | hv
      · subst h0
        cases acc with
        | none => exact maxSeq_foldl_some us v
        | some a =>
            obtain ⟨w, hw, hle⟩ := maxSeq_foldl_some us (max a v)
            exact ⟨w, hw, le_trans (le_max_right a v) hle⟩
      · exact ih _ v hv

theorem lt_nextSequenceNumber {db : Db} {q : String} {m : Message} {s : Int}
    (hm : m ∈ db.messages) (hq : m.queue_name = q) (hs : m.sequence_number = some s) :
    s < nextSequenceNumber db q := by
  have hmem : s ∈ db.messages.filterMap
      (fun m => if m.queue_name == q then m.sequence_number else none) := by
    rw [List.mem_filterMap]
    refine ⟨m, hm, ?_⟩
    rw [if_pos (by simp [hq])]
    exact hs
  obtain ⟨w, hw, hle⟩ := maxSeq_foldl_mem _ none s hmem
  have hmax : maxSeq (db.messages.filterMap
      (fun m => if m.queue_name == q then m.sequence_number else none)) = some w := hw
  rw [nextSequenceNumber, hmax]
  simp only [Option.getD_some]
  omega


theorem runDedupSends_cons (q d : String) (c : SendCall) (cs : List SendCall) (db : Db) :
    runDedupSends q d (c :: cs) db
      = runDedupSends q d cs
          (Database.send_message_with_delay_and_group db (dedupCallParams q d c) c.time) := rfl

theorem runDedupSends_blocked (q d : String) (T : Nat) :
    ∀ (calls : List SendCall) (db : Db),
      (∀ c ∈ calls, c.time < T + 300) →
      (∃ m ∈ db.messages,
        m.queue_name = q ∧ m.deduplication_id = some d ∧ T ≤ m.created_at) →
      runDedupSends q d calls db = db := by
  intro calls
  induction calls with
  | nil =>
      intro db _ _
      rfl
  | cons c cs ih =>
      intro db hw hex
      obtain ⟨m, hm, hq, hd, hT⟩ := hex
      have hdup : dedupExists db q d c.time = true := by
        refine dedupExists_of_mem hm hq hd ?_
        have := hw c (List.mem_cons_self c cs)
        omega
      rw [runDedupSends_cons, send_skip_eq _ _ _
        (by rw [sendSkips_of_explicit _ _ _ d rfl]; exact hdup)]
      exact ih db (fun c' hc' => hw c' (List.mem_cons_of_mem c hc')) ⟨m, hm, hq, hd, hT⟩



/-- C6: sending the same `(queue, dedup_id)` to one queue N times within a
5-minute window inserts at most one message row, and a send that finds a
duplicate silently succeeds, returning the fresh message id with the store
unchanged. -/
theorem C6_dedup_idempotence (db : Db) (q d : String) (calls : List SendCall) (T : Nat)
    (hwin : ∀ c ∈ calls, T ≤ c.time ∧ c.time < T + 300) :
    (runDedupSends q d calls db).messages.length ≤ db.messages.length + 1 ∧
    ∀ (mid body : String) (attrs : Option String) (delay : Nat)
      (grp : Option String) (now : Nat),
      dedupExists db q d now = true →
      QueueService.send_message_enhanced_with_group db q mid body attrs (some d)
        delay grp now = (mid, db) := by
  constructor
  · induction calls generalizing db with
    | nil =>
        simp [runDedupSends]
    | cons c cs ih =>
        rw [runDedupSends_cons]
        by_cases hskip : sendSkips db (dedupCallParams q d c) c.time = true
        · rw [send_skip_eq _ _ _ hskip]
          exact ih db (fun c' hc' => hwin c' (List.mem_cons_of_mem c hc'))
        · have hskip' : sendSkips db (dedupCallParams q d c) c.time = false :=
            Bool.eq_false_iff.mpr hskip
          rw [send_insert_eq _ _ _ hskip']
          rw [runDedupSends_blocked q d T cs _
            (fun c' hc' => (hwin c' (List.mem_cons_of_mem c hc')).2)
            ⟨insertedMessage db (dedupCallParams q d c) c.time, by simp, rfl,
              by simp only [insertedMessage]; exact effectiveDedup_explicit _ _ _ _,
              (hwin c (List.mem_cons_self c cs)).1⟩]
          simp
  · intro mid body attrs delay grp now hdup
    show (mid, Database.send_message_with_delay_and_group db _ now) = (mid, db)
    rw [send_skip_eq _ _ _ (by rw [sendSkips_of_explicit _ _ _ d rfl]; exact hdup)]

/-- C6 witness: three sends of the same `(queue, dedup_id)` at t = 10, 20, 250
insert at most one row. -/
theorem C6_witness :
    (∀ c ∈ exCalls6, 10 ≤ c.time ∧ c.time < 10 + 300) ∧
    (runDedupSends "q" "dd" exCalls6 exDb6).messages.length
      ≤ exDb6.messages.length + 1 :=
  ⟨by decide, (C6_dedup_idempotence exDb6 "q" "dd" exCalls6 10 (by decide)).1⟩

/-- C1 (amended): when the selected head crosses `max_receive_count` on a
queue with a DLQ target, `receive_message` marks the row `dlq_pending` with
the incremented receive count and returns no message — but no promotion
happens in that call: no DLQ record is inserted, no row is removed, and the
drain loop of `receive_messages_enhanced` stops without delivering or
retrying another candidate. -/
theorem C1_dlq_pending_no_promotion (db : Db) (q : String) (now : Nat) (m : Message)
    (hhead : receiveHead db q now = some m) (htrig : dlqTrigger db q m = true) :
    Database.receive_message db q now
      = (none,
         { db with
            messages := db.messages.map (fun x =>
              if x.id == m.id then
                { x with status := "dlq_pending",
                         receive_count := lookupReceiveCount db m + 1 }
              else x) }) ∧
    (Database.receive_message db q now).2.dead_letter_messages
      = db.dead_letter_messages ∧
    (Database.receive_message db q now).2.messages.length = db.messages.length ∧
    ∀ maxMessages : Nat,
      (QueueService.receive_messages_enhanced_immediate db q now (maxMessages + 1)).1 = [] := by
  have h1 : Database.receive_message db q now
      = (none,
         { db with
            messages := db.messages.map (fun x =>
              if x.id == m.id then
                { x with status := "dlq_pending",
                         receive_count := lookupReceiveCount db m + 1 }
              else x) }) := by
    simp only [Database.receive_message, hhead, htrig, if_true]
  refine ⟨h1, by rw [h1], by rw [h1]; simp, fun maxM => ?_⟩
  simp only [QueueService.receive_messages_enhanced_immediate,
    QueueService.receive_message, h1]

/-- C1 counterexample: in `exDb1` the head `m1` crosses `max_receive_count = 1`
on a queue with a DLQ target; the receive call returns nothing, yet no DLQ
record is inserted, `m1` stays in the messages table as `dlq_pending`, and the
eligible `m2` is not delivered — there is no promotion and no re-try within
the call, contradicting the claim. -/
theorem C1_counterexample :
    (QueueService.receive_messages_enhanced_immediate exDb1 "q" 1000 10).1 = [] ∧
    (QueueService.receive_messages_enhanced_immediate exDb1 "q" 1000 10).2.dead_letter_messages
      = [] ∧
    ((QueueService.receive_messages_enhanced_immediate exDb1 "q" 1000 10).2.messages.map
      (fun m => (m.id, m.status))) = [("m1", "dlq_pending"), ("m2", "active")] := by
  decide

/-- C1 witness: the amended theorem applied to `exDb1`. -/
theorem C1_witness :
    receiveHead exDb1 "q" 1000 = some exMsg1 ∧
    dlqTrigger exDb1 "q" exMsg1 = true ∧
    (QueueService.receive_messages_enhanced_immediate exDb1 "q" 1000 3).1 = [] :=
  ⟨by decide, by decide,
    (C1_dlq_pending_no_promotion exDb1 "q" 1000 exMsg1 (by decide) (by decide)).2.2.2 2⟩

theorem insertSorted_perm (le : Message → Message → Bool) (x : Message) :
    ∀ (l : List Message), (insertSorted le x l).Perm (x :: l) := by
  intro l
  induction l with
  | nil => exact List.Perm.refl _
  | cons y ys ih =>
      simp only [insertSorted]
      by_cases h : le y x = true
      · rw [if_pos h]
        exact (ih.cons y).trans (List.Perm.swap x y ys)
      · rw [if_neg h]

theorem stableSort_perm_aux :
    ∀ (l acc : List Message),
      (l.foldl (fun acc x => insertSorted createdLe x acc) acc).Perm (acc ++ l) := by
  intro l
  induction l with
  | nil =>
      intro acc
      rw [List.foldl_nil, List.append_nil]
  | cons x xs ih =>
      intro acc
      simp only [List.foldl_cons]
      refine (ih _).trans ?_
      refine (List.Perm.append_right xs (insertSorted_perm createdLe x acc)).trans ?_
      exact List.perm_middle.symm

/-- The modelled `ORDER BY` scan is a permutation of the candidate rows. -/
theorem stableSort_perm (l : List Message) : (stableSort createdLe l).Perm l := by
  have h := stableSort_perm_aux l []
  simpa [stableSort] using h

/-- Under the primary-key invariant, the batch's selected rows carry pairwise
distinct ids. -/
theorem batchSelectedRows_ids_nodup (db : Db) (q : String) (maxM now : Nat)
    (hids : (db.messages.map (fun m => m.id)).Nodup) :
    ((batchSelectedRows db q maxM now).map (fun m => m.id)).Nodup := by
  have h1 : ((db.messages.filter (selectable q now)).map (fun m => m.id)).Nodup :=
    List.Nodup.sublist (List.Sublist.map _ (List.filter_sublist _)) hids
  have h2 : ((stableSort createdLe (db.messages.filter (selectable q now))).map
      (fun m => m.id)).Nodup :=
    (List.Perm.nodup_iff (List.Perm.map _ (stableSort_perm _))).mpr h1
  simp only [batchSelectedRows]
  exact List.Nodup.sublist (List.Sublist.map _ (List.take_sublist _ _)) h2

theorem dbfold_messages (now : Nat) :
    ∀ (rows : List Message) (db : Db),
      (rows.foldl
        (fun acc r => { acc with messages := acc.messages.map (batchStamp now r.id) })
        db).messages
        = rows.foldl (fun msgs r => msgs.map (batchStamp now r.id)) db.messages := by
  intro rows
  induction rows with
  | nil =>
      intro db
      rfl
  | cons r rs ih =>
      intro db
      simp only [List.foldl_cons]
      exact ih _

/-- When the selected rows carry distinct ids, the sequence of per-row batch
UPDATEs amounts to stamping each matching table row exactly once. -/
theorem msgsfold_stamp (now : Nat) :
    ∀ (rows msgs : List Message), (rows.map (fun r => r.id)).Nodup →
      rows.foldl (fun msgs r => msgs.map (batchStamp now r.id)) msgs
        = msgs.map (fun x =>
            if rows.any (fun r => r.id == x.id) then
              { x with
                  visibility_timeout := some (now + 30)
                  receive_count := x.receive_count + 1
                  status := "processing"
                  processed_at := some now }
            else x) := by
  intro rows
  induction rows with
  | nil =>
      intro msgs _
      simp
  | cons r rs ih =>
      intro msgs hnd
      rw [List.map_cons, List.nodup_cons] at hnd
      obtain ⟨hrid, hnd'⟩ := hnd
      simp only [List.foldl_cons]
      rw [ih _ hnd', List.map_map]
      refine List.map_congr_left ?_
      intro x _
      simp only [Function.comp_apply]
      by_cases hxr : (x.id == r.id) = true
      · have hxid : x.id = r.id := by simpa using hxr
        have hr_x : (r.id == x.id) = true := by simp [hxid]
        have hany : rs.any (fun r' => r'.id == x.id) = false := by
          rw [Bool.eq_false_iff]
          intro hc
          obtain ⟨r', hr', hEq⟩ := List.any_eq_true.mp hc
          refine hrid ?_
          rw [List.mem_map]
          exact ⟨r', hr', by rw [(show r'.id = x.id by simpa using hEq), hxid]⟩
        simp [batchStamp, hxr, hany, List.any_cons, hr_x]
      · have hxr' : (x.id == r.id) = false := Bool.eq_false_iff.mpr hxr
        have hr_x : (r.id == x.id) = false := by
          rw [Bool.eq_false_iff]
          intro hc
          exact hxr (by simp [(show r.id = x.id by simpa using hc).symm])
        simp [batchStamp, hxr', List.any_cons, hr_x]

/-- C2 (amended): every successful receive — single and batch — stamps
`status = 'processing'`, `processed_at = now`, increments the receive count by
one, and sets the visibility deadline to `now + 30`: the hardcoded 30 seconds,
not the queue's configured visibility timeout. The batch part assumes the
primary-key invariant (distinct message ids). -/
theorem C2_receive_stamps (db : Db) (q : String) (now : Nat) :
    (∀ m : Message, receiveHead db q now = some m → dlqTrigger db q m = false →
      (Database.receive_message db q now).1
        = some ⟨m.id, m.body, m.created_at, m.attributes⟩ ∧
      (Database.receive_message db q now).2.messages
        = db.messages.map (fun x =>
            if x.id == m.id then
              { x with
                  visibility_timeout := some (now + 30)
                  receive_count := lookupReceiveCount db m + 1
                  status := "processing"
                  processed_at := some now }
            else x)) ∧
    (∀ max_messages : Nat, (db.messages.map (fun m => m.id)).Nodup →
      (Database.receive_messages_batch db q max_messages now).1
        = (batchSelectedRows db q max_messages now).map
            (fun m => ⟨m.id, m.body, m.created_at, m.attributes⟩) ∧
      (Database.receive_messages_batch db q max_messages now).2.messages
        = db.messages.map (fun x =>
            if (batchSelectedRows db q max_messages now).any (fun r => r.id == x.id) then
              { x with
                  visibility_timeout := some (now + 30)
                  receive_count := x.receive_count + 1
                  status := "processing"
                  processed_at := some now }
            else x)) := by
  constructor
  · intro m hhead hnd
    constructor <;>
      simp only [Database.receive_message, hhead, hnd, Bool.false_eq_true, if_false]
  · intro maxM hids
    refine ⟨rfl, ?_⟩
    show ((batchSelectedRows db q maxM now).foldl
        (fun acc r => { acc with messages := acc.messages.map (batchStamp now r.id) })
        db).messages = _
    rw [dbfold_messages,
      msgsfold_stamp now _ _ (batchSelectedRows_ids_nodup db q maxM now hids)]

/-- C2 counterexample: the queue of `exDb2` is configured with a visibility
timeout of 5 seconds, yet the receive at t = 100 sets the deadline to 130 =
100 + 30, not 105. -/
theorem C2_counterexample :
    getQueueConfig exDb2 "q" = some exCfg2 ∧
    exCfg2.visibility_timeout_seconds = 5 ∧
    ((Database.receive_message exDb2 "q" 100).2.messages.map
      (fun m => m.visibility_timeout)) = [some 130] ∧
    (100 : Nat) + 5 ≠ 130 := by
  decide

/-- C2 witness: the amended theorem applied to `exDb2`, exercising both the
single-receive and the batch-receive parts. -/
theorem C2_witness :
    receiveHead exDb2 "q" 100 = some exMsg2 ∧
    dlqTrigger exDb2 "q" exMsg2 = false ∧
    (exDb2.messages.map (fun m => m.id)).Nodup ∧
    (Database.receive_message exDb2 "q" 100).1 = some ⟨"m1", "x", 10, none⟩ ∧
    ((Database.receive_messages_batch exDb2 "q" 10 100).2.messages.map
      (fun m => m.visibility_timeout)) = [some 130] := by
  refine ⟨by decide, by decide, by decide, ?_, ?_⟩
  · exact ((C2_receive_stamps exDb2 "q" 100).1 exMsg2 (by decide) (by decide)).1
  · rw [((C2_receive_stamps exDb2 "q" 100).2 10 (by decide)).2]
    decide

/-- C3: the FIFO flag is not immutable. `exDb3` holds the FIFO queue
`orders.fifo` with `is_fifo = true`; one `set_queue_attributes` call (here
with an empty attribute map) replaces the whole config row, and because the
statement's column list omits `is_fifo`, the flag falls back to the schema
default `FALSE` — `get_queue_config` afterwards reports a standard queue. -/
theorem C3_fifo_flag_reset :
    ((getQueueConfig exDb3 "orders.fifo").map (fun c => c.is_fifo) = some true) ∧
    ((getQueueConfig (Database.set_queue_attributes exDb3 "orders.fifo" {})
        "orders.fifo").map (fun c => c.is_fifo) = some false) := by
  decide

/-- C4 (amended): `delete_message` stamps `status = 'deleted'` and
`deleted_at = now` on every row with the resolved id and returns true iff
such a row exists — including rows that are already deleted, so a repeated
delete returns true again (refreshing `deleted_at`), not false. -/
theorem C4_delete_message (db : Db) (message_id : String) (now : Nat) :
    (Database.delete_message db message_id now).1
      = db.messages.any (fun m => m.id == message_id) ∧
    (Database.delete_message db message_id now).2.messages
      = db.messages.map (fun m =>
          if m.id == message_id then
            { m with status := "deleted", deleted_at := some now }
          else m) := by
  refine ⟨?_, rfl⟩
  simp only [Database.delete_message]
  rw [Bool.eq_iff_iff]
  simp [List.length_pos, List.any_eq_true, Nat.pos_iff_ne_zero,
    List.length_eq_zero, List.filter_eq_nil_iff]

/-- C4 counterexample: deleting the only message of `exDb4` returns true and
marks it deleted; deleting it again returns true as well, where the claim
demands false. -/
theorem C4_counterexample :
    (Database.delete_message exDb4 "m1" 20).1 = true ∧
    ((Database.delete_message exDb4 "m1" 20).2.messages.map (fun m => m.status))
      = ["deleted"] ∧
    (Database.delete_message (Database.delete_message exDb4 "m1" 20).2 "m1" 30).1
      = true := by
  decide

/-- C5 (amended): the selected head is a message of the queue satisfying the
code's selection predicate — same queue, active, visibility deadline absent or
passed, delay absent or passed, where for these two columns "passed" means the
stored timestamp's UTC day strictly precedes the current UTC day, because the
code compares the stored RFC3339 text against `datetime('now')`'s differently
formatted text; every delivered row is exactly the head's projection; and when
some message satisfies the predicate and no row trips the DLQ branch, the
receive delivers a message. In particular a delayed message stays hidden not
merely until `delay_until` but until the UTC date has advanced past it. -/
theorem C5_selection_predicate (db : Db) (q : String) (now : Nat) :
    (∀ m : Message, receiveHead db q now = some m →
      m ∈ db.messages ∧ selectable q now m = true ∧
      ∀ d, m.delay_until = some d → d / 86400 < now / 86400) ∧
    (∀ r : ReceiveRow, (Database.receive_message db q now).1 = some r →
      ∃ m : Message, receiveHead db q now = some m ∧
        r = ⟨m.id, m.body, m.created_at, m.attributes⟩) ∧
    ((∃ m ∈ db.messages, selectable q now m = true) →
      (∀ m ∈ db.messages, dlqTrigger db q m = false) →
      (Database.receive_message db q now).1.isSome = true) := by
  refine ⟨?_, ?_, ?_⟩
  · intro m hm
    have hmem := (selectHead_spec (headKey (queueIsFifo db q)) _
      (msgLt_eq_decide (queueIsFifo db q)) _ m hm).1
    obtain ⟨hin, hsel⟩ := List.mem_filter.mp hmem
    refine ⟨hin, hsel, fun d hd => ?_⟩
    simp only [selectable, Bool.and_eq_true] at hsel
    have h4 := hsel.2
    rw [hd] at h4
    simp only [rfc3339LtDatetimeNow] at h4
    exact of_decide_eq_true h4
  · intro r hr
    cases hh : receiveHead db q now with
    | none =>
        rw [Database.receive_message, hh] at hr
        exact absurd hr (by simp)
    | some m =>
        by_cases ht : dlqTrigger db q m = true
        · rw [Database.receive_message, hh] at hr
          simp only [ht, if_true] at hr
          exact absurd hr (by simp)
        · have ht' : dlqTrigger db q m = false := Bool.eq_false_iff.mpr ht
          rw [Database.receive_message, hh] at hr
          simp only [ht', Bool.false_eq_true, if_false] at hr
          exact ⟨m, rfl, (Option.some.inj hr).symm⟩
  · intro hex hnd
    obtain ⟨m, hm, hsel⟩ := hex
    have hne : db.messages.filter (selectable q now) ≠ [] :=
      List.ne_nil_of_mem (List.mem_filter.mpr ⟨hm, hsel⟩)
    obtain ⟨m₀, hm₀⟩ := Option.isSome_iff_exists.mp
      (selectHead_isSome (msgLt (queueIsFifo db q)) _ hne)
    have hm₀mem := (selectHead_spec (headKey (queueIsFifo db q)) _
      (msgLt_eq_decide (queueIsFifo db q)) _ m₀ hm₀).1
    have ht := hnd m₀ (List.mem_filter.mp hm₀mem).1
    rw [Database.receive_message, (show receiveHead db q now = some m₀ from hm₀)]
    simp only [ht, Bool.false_eq_true, if_false]
    rfl

/-- C5 counterexample: in `exDb5` the message sent at t = 0 with a 50-second
delay has `delay_until = 50`; at `now = 100` the chronological `delay_until <
now` holds and every other condition is met, yet nothing is delivered — both
instants fall on the same UTC day, so the text comparison still hides the
row; one UTC day later the receive delivers it. This falsifies "becomes
deliverable once delay_until < now". -/
theorem C5_counterexample :
    (exDb5.messages.map (fun m => (m.status, m.visibility_timeout, m.delay_until))
      = [("active", none, some 50)]) ∧
    (50 : Nat) < 100 ∧
    (Database.receive_message exDb5 "q" 100).1 = none ∧
    (Database.receive_message exDb5 "q" 86410).1.isSome = true := by
  decide

/-- C5 witness: one UTC day after its `delay_until = 50`, the delayed message
of `exDb5` is selectable and delivered. -/
theorem C5_witness :
    (∃ m ∈ exDb5.messages, selectable "q" 86410 m = true) ∧
    (∀ m ∈ exDb5.messages, dlqTrigger exDb5 "q" m = false) ∧
    (Database.receive_message exDb5 "q" 86410).1.isSome = true :=
  ⟨by decide, by decide,
    (C5_selection_predicate exDb5 "q" 86410).2.2 (by decide) (by decide)⟩

/-- C7 (amended): a FIFO send that inserts assigns
`sequence_number = 1 + max(sequence_number)` over the rows currently in the
queue, strictly above every sequence number currently present; uniqueness and
monotonicity therefore hold only against the rows still in the table, and DLQ
promotion — which physically removes a row — lets a later send reuse the
removed message's sequence number. -/
theorem C7_sequence_allocation (db : Db) (p : SendMessageParams) (now : Nat)
    (hfifo : queueIsFifo db p.queue_name = true) (hins : sendSkips db p now = false) :
    Database.send_message_with_delay_and_group db p now
      = { db with messages := db.messages ++ [insertedMessage db p now] } ∧
    (insertedMessage db p now).sequence_number
      = some (nextSequenceNumber db p.queue_name) ∧
    ∀ m ∈ db.messages, m.queue_name = p.queue_name →
      ∀ s : Int, m.sequence_number = some s → s < nextSequenceNumber db p.queue_name := by
  refine ⟨send_insert_eq db p now hins, ?_, ?_⟩
  · simp [insertedMessage, hfifo]
  · intro m hm hq s hs
    exact lt_nextSequenceNumber hm hq hs

/-- C7 counterexample: in the FIFO queue of `exDb7`, `m1` and `m2` hold
sequence numbers 1 and 2; promoting `m2` to the DLQ removes its row, and the
next send assigns `m3` sequence number 2 again — the numbers assigned over
the operation sequence are neither unique nor strictly increasing. -/
theorem C7_counterexample :
    (exDb7.messages.map (fun m => (m.id, m.sequence_number))
      = [("m1", some 1), ("m2", some 2)]) ∧
    (Database.move_message_to_dlq exDb7 "m2" "exceeded max receive count" 30).1 = true ∧
    ((Database.move_message_to_dlq exDb7 "m2" "exceeded max receive count" 30).2.messages.map
      (fun m => m.id) = ["m1"]) ∧
    (exDb7c.messages.map (fun m => (m.id, m.sequence_number))
      = [("m1", some 1), ("m3", some 2)]) := by
  decide

/-- C7 witness: the amended theorem applied to a fourth send into `exDb7`. -/
theorem C7_witness :
    queueIsFifo exDb7 "q.fifo" = true ∧
    sendSkips exDb7 exParams7 40 = false ∧
    (insertedMessage exDb7 exParams7 40).sequence_number
      = some (nextSequenceNumber exDb7 "q.fifo") :=
  ⟨by decide, by decide,
    (C7_sequence_allocation exDb7 exParams7 40 (by decide) (by decide)).2.1⟩

/-- C8 (amended): the single-receive head is a selectable message with no
strictly smaller candidate under the code's key — `sequence_number` on FIFO
queues, `created_at` otherwise — where ties are broken by rowid (insertion)
order, not by lexicographic message id; and batch receive returns rows in
`created_at` order for every queue, FIFO included. -/
theorem C8_head_ordering (db : Db) (q : String) (now : Nat) :
    (∀ m : Message, receiveHead db q now = some m →
      m ∈ db.messages.filter (selectable q now) ∧
      ∀ m' ∈ db.messages.filter (selectable q now),
        msgLt (queueIsFifo db q) m' m = false) ∧
    ∀ max_messages : Nat,
      ((Database.receive_messages_batch db q max_messages now).1).Pairwise
        (fun a b => a.created_at ≤ b.created_at) := by
  constructor
  · intro m hm
    obtain ⟨hmem, hmin⟩ := selectHead_spec (headKey (queueIsFifo db q)) _
      (msgLt_eq_decide (queueIsFifo db q)) _ m hm
    refine ⟨hmem, fun m' hm' => ?_⟩
    rw [msgLt_eq_decide]
    exact decide_eq_false (not_lt.mpr (hmin m' hm'))
  · intro maxM
    exact receive_messages_batch_sorted db q maxM now

/-- C8 counterexample: in `exDb8` both messages share `created_at = 10`; the
code's head is the earlier-inserted id `"z"`, while the claim's lexicographic
tie-break demands `"a"` (`"a" < "z"`). -/
theorem C8_counterexample :
    ((Database.receive_message exDb8 "q" 100).1.map (fun r => r.id) = some "z") ∧
    (exDb8.messages.map (fun m => (m.id, m.created_at)) = [("z", 10), ("a", 10)]) ∧
    lexLt "a".data "z".data = true := by
  decide

/-- C8 witness: the amended theorem applied to `exDb8`. -/
theorem C8_witness :
    receiveHead exDb8 "q" 100 = some exMsg8z ∧
    exMsg8a ∈ exDb8.messages.filter (selectable "q" 100) ∧
    msgLt (queueIsFifo exDb8 "q") exMsg8a exMsg8z = false :=
  ⟨by decide, by decide,
    ((C8_head_ordering exDb8 "q" 100).1 exMsg8z (by decide)).2 exMsg8a (by decide)⟩

/-- C9: in KeepForever mode the cleanup deletes nothing; it rewrites exactly
the rows with `status = 'processing'` and a present, expired visibility
deadline to `active` with the deadline cleared, leaves every other row and
every other table unchanged, and returns the number of rows it touched. -/
theorem C9_cleanup_keep_forever (db : Db) (rc : RetentionConfig) (now : Nat)
    (hmode : rc.mode = RetentionMode.KeepForever) :
    (Database.cleanup_expired_messages db rc now).2.messages.length
      = db.messages.length ∧
    (Database.cleanup_expired_messages db rc now).2.messages
      = db.messages.map (fun m =>
          if Database.expiredProcessing now m then
            { m with status := "active", visibility_timeout := none }
          else m) ∧
    (Database.cleanup_expired_messages db rc now).1
      = (db.messages.filter (Database.expiredProcessing now)).length ∧
    (Database.cleanup_expired_messages db rc now).2.queues = db.queues ∧
    (Database.cleanup_expired_messages db rc now).2.queue_config = db.queue_config ∧
    (Database.cleanup_expired_messages db rc now).2.dead_letter_messages
      = db.dead_letter_messages := by
  simp [Database.cleanup_expired_messages, hmode]

/-- C9 witness: the default retention config is KeepForever, and the cleanup
of `exDb9` at t = 500 touches exactly its one expired processing row. -/
theorem C9_witness :
    ({} : RetentionConfig).mode = RetentionMode.KeepForever ∧
    (Database.cleanup_expired_messages exDb9 {} 500).1 = 1 := by
  refine ⟨rfl, ?_⟩
  rw [(C9_cleanup_keep_forever exDb9 {} 500 rfl).2.2.1]
  decide

/-- C10: `delete_queue` removes exactly the queue's message rows, returns
true iff the queue row existed, leaves `queue_config` and the DLQ table
untouched, and a subsequent `create_queue` of the same name leaves the prior
configuration in place for `get_queue_config` to report. -/
theorem C10_delete_queue (db : Db) (name : String) (now : Nat) :
    (Database.delete_queue db name).1 = db.queues.any (fun qr => qr.1 == name) ∧
    (Database.delete_queue db name).2.messages
      = db.messages.filter (fun m => m.queue_name != name) ∧
    (Database.delete_queue db name).2.queue_config = db.queue_config ∧
    (Database.delete_queue db name).2.dead_letter_messages
      = db.dead_letter_messages ∧
    getQueueConfig
      (Database.create_queue (Database.delete_queue db name).2 name now) name
      = getQueueConfig db name := by
  refine ⟨rfl, rfl, rfl, rfl, ?_⟩
  simp only [Database.create_queue, Database.delete_queue, getQueueConfig]
  split <;> rfl

end QLite
